import Mathlib

/-
  Verification development for the platform-integration layer:
  unified-diff line mapping, HTTP error classification, retry policy,
  batch review orchestration, and the two provider adapters.
  Each TypeScript function is shallowly embedded as an executable Lean
  definition; JS strings become `List Char` line lists, machine numbers
  become `Nat`, thrown errors become explicit error values.
-/

/-! ## Diff line mapper (diff-utils / DiffViewer)

The hunk-header regex `@@ -(\d+)(?:,\d+)? \+(\d+)(?:,\d+)? @@` is modelled
by a deterministic character-list parser: the digit groups are maximal
digit runs, the optional `,len` group consumes a comma only when at least
one digit follows (the regex backtracks to the same behaviour because
digits, comma and space are disjoint character classes). -/

/-- Maximal run of decimal digits, accumulating their base-10 value
(the value `Number.parseInt` returns on the matched group). -/
def takeDigits : Nat → List Char → Nat × List Char
  | acc, [] => (acc, [])
  | acc, c :: cs =>
    if c.isDigit then takeDigits (acc * 10 + (c.toNat - 48)) cs else (acc, c :: cs)

/-- One-or-more digits (`\d+`): fails when the next char is not a digit. -/
def readDigits : List Char → Option (Nat × List Char)
  | [] => none
  | c :: cs => if c.isDigit then some (takeDigits 0 (c :: cs)) else none

/-- The optional `(?:,\d+)?` group: consumed only when a comma followed by
at least one digit is present. -/
def skipCommaDigits : List Char → List Char
  | ',' :: c :: cs => if c.isDigit then (takeDigits 0 (c :: cs)).2 else ',' :: c :: cs
  | cs => cs

/-- Match of `^@@ -(\d+)(?:,\d+)? \+(\d+)(?:,\d+)? @@` against the start of a
line, returning the two captured start numbers. -/
def matchHunkHeader : List Char → Option (Nat × Nat)
  | '@' :: '@' :: ' ' :: '-' :: rest =>
    match readDigits rest with
    | none => none
    | some (o, rest1) =>
      match skipCommaDigits rest1 with
      | ' ' :: '+' :: rest2 =>
        match readDigits rest2 with
        | none => none
        | some (n, rest3) =>
          match skipCommaDigits rest3 with
          | ' ' :: '@' :: '@' :: _ => some (o, n)
          | _ => none
      | _ => none
  | _ => none

/-- `line.startsWith("+")`. -/
def startsPlus : List Char → Bool
  | '+' :: _ => true
  | _ => false

/-- `line.startsWith("+++ ")`, the new-file header marker. -/
def startsFilePlus : List Char → Bool
  | '+' :: '+' :: '+' :: ' ' :: _ => true
  | _ => false

/-- `line.startsWith("-")`. -/
def startsMinus : List Char → Bool
  | '-' :: _ => true
  | _ => false

/-- `line.startsWith("--- ")`, the old-file header marker. -/
def startsFileMinus : List Char → Bool
  | '-' :: '-' :: '-' :: ' ' :: _ => true
  | _ => false

/-- `line.startsWith(" ")`. -/
def startsSpace : List Char → Bool
  | ' ' :: _ => true
  | _ => false

/-- `diffContent.split("\n")`: split at every newline, keeping empty pieces. -/
def splitLinesAux : List Char → List Char → List (List Char)
  | acc, [] => [acc.reverse]
  | acc, c :: cs =>
    if c = '\n' then acc.reverse :: splitLinesAux [] cs else splitLinesAux (c :: acc) cs

/-- All lines of a character stream, as `String.prototype.split` produces them. -/
def splitLines (cs : List Char) : List (List Char) := splitLinesAux [] cs

/-- Mutable scan state of `parseDiffChangedLines` (diff-utils). -/
structure ScanState where
  additions : List Nat
  deletions : List Nat
  oldLine : Nat
  newLine : Nat
  inHunk : Bool
deriving DecidableEq

/-- Body of the `for (const line of lines)` loop of `parseDiffChangedLines`. -/
def scanStep (st : ScanState) (line : List Char) : ScanState :=
  match matchHunkHeader line with
  | some (o, n) => { st with oldLine := o, newLine := n, inHunk := true }
  | none =>
    if !st.inHunk then st
    else if startsPlus line && !startsFilePlus line then
      { st with additions := st.additions ++ [st.newLine], newLine := st.newLine + 1 }
    else if startsMinus line && !startsFileMinus line then
      { st with deletions := st.deletions ++ [st.oldLine], oldLine := st.oldLine + 1 }
    else if startsSpace line then
      { st with oldLine := st.oldLine + 1, newLine := st.newLine + 1 }
    else st

/-- `parseDiffChangedLines(diffContent)` from `diff-utils.ts`: the recovered
addition and deletion line numbers, in recording order. -/
def parseDiffChangedLines (diffContent : String) : List Nat × List Nat :=
  let fin := (splitLines diffContent.toList).foldl scanStep ⟨[], [], 0, 0, false⟩
  (fin.additions, fin.deletions)

/-- JS `Set.prototype.add`: append only when absent (insertion order kept). -/
def setAdd (l : List Nat) (n : Nat) : List Nat :=
  if l.contains n then l else l ++ [n]

/-- Mutable scan state of `parseChangedLines` (DiffViewer), which also tracks
the first recorded addition/deletion and dedups into JS `Set`s. -/
structure SetScanState where
  newLines : List Nat
  oldLines : List Nat
  oldLine : Nat
  newLine : Nat
  inHunk : Bool
  firstNewLine : Option Nat
  firstOldLine : Option Nat
deriving DecidableEq

/-- Loop body of `parseChangedLines` (DiffViewer variant). -/
def setScanStep (st : SetScanState) (line : List Char) : SetScanState :=
  match matchHunkHeader line with
  | some (o, n) => { st with oldLine := o, newLine := n, inHunk := true }
  | none =>
    if !st.inHunk then st
    else if startsPlus line && !startsFilePlus line then
      { st with newLines := setAdd st.newLines st.newLine,
                firstNewLine := match st.firstNewLine with
                  | none => some st.newLine
                  | some v => some v,
                newLine := st.newLine + 1 }
    else if startsMinus line && !startsFileMinus line then
      { st with oldLines := setAdd st.oldLines st.oldLine,
                firstOldLine := match st.firstOldLine with
                  | none => some st.oldLine
                  | some v => some v,
                oldLine := st.oldLine + 1 }
    else if startsSpace line then
      { st with oldLine := st.oldLine + 1, newLine := st.newLine + 1 }
    else st

/-- Result record of `parseChangedLines` (DiffViewer). -/
structure ChangedLinesResult where
  newLines : List Nat
  oldLines : List Nat
  firstNewLine : Option Nat
  firstOldLine : Option Nat
deriving DecidableEq

/-- `parseChangedLines(diffText)` from `DiffViewer.tsx`. -/
def parseChangedLines (diffText : String) : ChangedLinesResult :=
  let fin := (splitLines diffText.toList).foldl setScanStep ⟨[], [], 0, 0, false, none, none⟩
  ⟨fin.newLines, fin.oldLines, fin.firstNewLine, fin.firstOldLine⟩

/-! Reference algorithm, written from the specification text: a pair of
cursors exists exactly while in in-hunk mode; a header resets them and
enters the mode; before the first header every line is ignored. -/

/-- Specification-side scan state: `cursors = some (oldLine, newLine)` is
in-hunk mode. -/
structure SpecHunkState where
  cursors : Option (Nat × Nat)
  additions : List Nat
  deletions : List Nat
deriving DecidableEq

/-- One line of the specification's reference algorithm. -/
def specLineStep (st : SpecHunkState) (line : List Char) : SpecHunkState :=
  match matchHunkHeader line with
  | some (o, n) => { st with cursors := some (o, n) }
  | none =>
    match st.cursors with
    | none => st
    | some (o, n) =>
      if startsPlus line && !startsFilePlus line then
        { st with additions := st.additions ++ [n], cursors := some (o, n + 1) }
      else if startsMinus line && !startsFileMinus line then
        { st with deletions := st.deletions ++ [o], cursors := some (o + 1, n) }
      else if startsSpace line then { st with cursors := some (o + 1, n + 1) }
      else st

/-- The specification's reference line mapper. -/
def specChangedLines (diffContent : String) : List Nat × List Nat :=
  let fin := (splitLines diffContent.toList).foldl specLineStep ⟨none, [], []⟩
  (fin.additions, fin.deletions)

/-- View of the implementation state as a specification state. -/
def toSpecState (st : ScanState) : SpecHunkState :=
  ⟨if st.inHunk then some (st.oldLine, st.newLine) else none, st.additions, st.deletions⟩

lemma specLineStep_toSpecState (st : ScanState) (line : List Char) :
    specLineStep (toSpecState st) line = toSpecState (scanStep st line) := by
  unfold specLineStep scanStep toSpecState
  cases h : matchHunkHeader line with
  | some p => obtain ⟨o, n⟩ := p; simp
  | none =>
    cases hh : st.inHunk
    · simp [hh]
    · by_cases h1 : startsPlus line && !startsFilePlus line
      · simp [hh, h1]
      · by_cases h2 : startsMinus line && !startsFileMinus line
        · simp [hh, h1, h2]
        · by_cases h3 : startsSpace line
          · simp [hh, h1, h2, h3]
          · simp [hh, h1, h2, h3]

lemma foldl_specLineStep (lines : List (List Char)) :
    ∀ st : ScanState,
      lines.foldl specLineStep (toSpecState st) = toSpecState (lines.foldl scanStep st) := by
  induction lines with
  | nil => intro st; rfl
  | cons l ls ih =>
    intro st
    simp only [List.foldl_cons, specLineStep_toSpecState, ih]

/-- The implementation and the specification's reference algorithm agree on
every diff text. -/
lemma parseDiffChangedLines_eq_spec (s : String) :
    parseDiffChangedLines s = specChangedLines s := by
  unfold parseDiffChangedLines specChangedLines
  have h := foldl_specLineStep (splitLines s.toList) ⟨[], [], 0, 0, false⟩
  have h0 : toSpecState ⟨[], [], 0, 0, false⟩ = ⟨none, [], []⟩ := rfl
  rw [h0] at h
  rw [h]
  rfl

/-- Membership in the JS-`Set` model. -/
lemma mem_setAdd (k n : Nat) (l : List Nat) : k ∈ setAdd l n ↔ k ∈ l ∨ k = n := by
  unfold setAdd
  by_cases hn : n ∈ l
  · have hc : l.contains n = true := by simpa using hn
    simp only [hc, if_true]
    exact ⟨fun h => Or.inl h, fun h => h.elim id (fun hk => hk ▸ hn)⟩
  · have hc : l.contains n = false := by simpa using hn
    simp only [hc, Bool.false_eq_true, if_false, List.mem_append, List.mem_singleton]

/-! Branch-evaluation lemmas for the three step functions, keyed by the same
tests the loop bodies perform. -/

lemma setScanStep_header (st : SetScanState) (line : List Char) (o n : Nat)
    (h : matchHunkHeader line = some (o, n)) :
    setScanStep st line = { st with oldLine := o, newLine := n, inHunk := true } := by
  unfold setScanStep; rw [h]

lemma setScanStep_out (st : SetScanState) (line : List Char)
    (h : matchHunkHeader line = none) (hh : st.inHunk = false) :
    setScanStep st line = st := by
  unfold setScanStep; rw [h]; simp [hh]

lemma setScanStep_plus (st : SetScanState) (line : List Char)
    (h : matchHunkHeader line = none) (hh : st.inHunk = true)
    (h1 : (startsPlus line && !startsFilePlus line) = true) :
    setScanStep st line =
      { st with newLines := setAdd st.newLines st.newLine,
                firstNewLine := match st.firstNewLine with
                  | none => some st.newLine
                  | some v => some v,
                newLine := st.newLine + 1 } := by
  unfold setScanStep; rw [h]; simp [hh, h1]

lemma setScanStep_minus (st : SetScanState) (line : List Char)
    (h : matchHunkHeader line = none) (hh : st.inHunk = true)
    (h1 : (startsPlus line && !startsFilePlus line) = false)
    (h2 : (startsMinus line && !startsFileMinus line) = true) :
    setScanStep st line =
      { st with oldLines := setAdd st.oldLines st.oldLine,
                firstOldLine := match st.firstOldLine with
                  | none => some st.oldLine
                  | some v => some v,
                oldLine := st.oldLine + 1 } := by
  unfold setScanStep; rw [h]; simp [hh, h1, h2]

lemma setScanStep_ctx (st : SetScanState) (line : List Char)
    (h : matchHunkHeader line = none) (hh : st.inHunk = true)
    (h1 : (startsPlus line && !startsFilePlus line) = false)
    (h2 : (startsMinus line && !startsFileMinus line) = false)
    (h3 : startsSpace line = true) :
    setScanStep st line = { st with oldLine := st.oldLine + 1, newLine := st.newLine + 1 } := by
  unfold setScanStep; rw [h]; simp [hh, h1, h2, h3]

lemma setScanStep_other (st : SetScanState) (line : List Char)
    (h : matchHunkHeader line = none) (hh : st.inHunk = true)
    (h1 : (startsPlus line && !startsFilePlus line) = false)
    (h2 : (startsMinus line && !startsFileMinus line) = false)
    (h3 : startsSpace line = false) :
    setScanStep st line = st := by
  unfold setScanStep; rw [h]; simp [hh, h1, h2, h3]

lemma scanStep_header (st : ScanState) (line : List Char) (o n : Nat)
    (h : matchHunkHeader line = some (o, n)) :
    scanStep st line = { st with oldLine := o, newLine := n, inHunk := true } := by
  unfold scanStep; rw [h]

lemma scanStep_out (st : ScanState) (line : List Char)
    (h : matchHunkHeader line = none) (hh : st.inHunk = false) :
    scanStep st line = st := by
  unfold scanStep; rw [h]; simp [hh]

lemma scanStep_plus (st : ScanState) (line : List Char)
    (h : matchHunkHeader line = none) (hh : st.inHunk = true)
    (h1 : (startsPlus line && !startsFilePlus line) = true) :
    scanStep st line =
      { st with additions := st.additions ++ [st.newLine], newLine := st.newLine + 1 } := by
  unfold scanStep; rw [h]; simp [hh, h1]

lemma scanStep_minus (st : ScanState) (line : List Char)
    (h : matchHunkHeader line = none) (hh : st.inHunk = true)
    (h1 : (startsPlus line && !startsFilePlus line) = false)
    (h2 : (startsMinus line && !startsFileMinus line) = true) :
    scanStep st line =
      { st with deletions := st.deletions ++ [st.oldLine], oldLine := st.oldLine + 1 } := by
  unfold scanStep; rw [h]; simp [hh, h1, h2]

lemma scanStep_ctx (st : ScanState) (line : List Char)
    (h : matchHunkHeader line = none) (hh : st.inHunk = true)
    (h1 : (startsPlus line && !startsFilePlus line) = false)
    (h2 : (startsMinus line && !startsFileMinus line) = false)
    (h3 : startsSpace line = true) :
    scanStep st line = { st with oldLine := st.oldLine + 1, newLine := st.newLine + 1 } := by
  unfold scanStep; rw [h]; simp [hh, h1, h2, h3]

lemma scanStep_other (st : ScanState) (line : List Char)
    (h : matchHunkHeader line = none) (hh : st.inHunk = true)
    (h1 : (startsPlus line && !startsFilePlus line) = false)
    (h2 : (startsMinus line && !startsFileMinus line) = false)
    (h3 : startsSpace line = false) :
    scanStep st line = st := by
  unfold scanStep; rw [h]; simp [hh, h1, h2, h3]

/-- Invariant tying the `Set`-based DiffViewer scan state to the list-based
diff-utils scan state. -/
structure ScanRel (st1 : ScanState) (st2 : SetScanState) : Prop where
  memNew : ∀ k, k ∈ st2.newLines ↔ k ∈ st1.additions
  memOld : ∀ k, k ∈ st2.oldLines ↔ k ∈ st1.deletions
  firstNew : st2.firstNewLine = st1.additions.head?
  firstOld : st2.firstOldLine = st1.deletions.head?
  oldEq : st2.oldLine = st1.oldLine
  newEq : st2.newLine = st1.newLine
  hunkEq : st2.inHunk = st1.inHunk

lemma head?_append_singleton (l : List Nat) (n : Nat) :
    (l ++ [n]).head? = match l.head? with | none => some n | some v => some v := by
  cases l <;> rfl

lemma scanRel_step (st1 : ScanState) (st2 : SetScanState) (line : List Char)
    (h : ScanRel st1 st2) : ScanRel (scanStep st1 line) (setScanStep st2 line) := by
  obtain ⟨mn, mo, fn, fo, oe, ne, he⟩ := h
  cases hm : matchHunkHeader line with
  | some p =>
    obtain ⟨o, n⟩ := p
    rw [scanStep_header st1 line o n hm, setScanStep_header st2 line o n hm]
    exact ⟨mn, mo, fn, fo, rfl, rfl, rfl⟩
  | none =>
    cases hh : st1.inHunk with
    | false =>
      rw [scanStep_out st1 line hm hh, setScanStep_out st2 line hm (he.trans hh)]
      exact ⟨mn, mo, fn, fo, oe, ne, he⟩
    | true =>
      cases h1 : startsPlus line && !startsFilePlus line with
      | true =>
        rw [scanStep_plus st1 line hm hh h1, setScanStep_plus st2 line hm (he.trans hh) h1]
        refine ⟨?_, mo, ?_, fo, oe, by simp [ne], he⟩
        · intro k
          rw [mem_setAdd, mn k, ne]
          simp [List.mem_append]
        · rw [head?_append_singleton, ← fn, ne]
      | false =>
        cases h2 : startsMinus line && !startsFileMinus line with
        | true =>
          rw [scanStep_minus st1 line hm hh h1 h2,
            setScanStep_minus st2 line hm (he.trans hh) h1 h2]
          refine ⟨mn, ?_, fn, ?_, by simp [oe], ne, he⟩
          · intro k
            rw [mem_setAdd, mo k, oe]
            simp [List.mem_append]
          · rw [head?_append_singleton, ← fo, oe]
        | false =>
          cases h3 : startsSpace line with
          | true =>
            rw [scanStep_ctx st1 line hm hh h1 h2 h3,
              setScanStep_ctx st2 line hm (he.trans hh) h1 h2 h3]
            exact ⟨mn, mo, fn, fo, by simp [oe], by simp [ne], he⟩
          | false =>
            rw [scanStep_other st1 line hm hh h1 h2 h3,
              setScanStep_other st2 line hm (he.trans hh) h1 h2 h3]
            exact ⟨mn, mo, fn, fo, oe, ne, he⟩

lemma scanRel_foldl (lines : List (List Char)) :
    ∀ st1 st2, ScanRel st1 st2 →
      ScanRel (lines.foldl scanStep st1) (lines.foldl setScanStep st2) := by
  induction lines with
  | nil => intro st1 st2 h; exact h
  | cons l ls ih =>
    intro st1 st2 h
    exact ih _ _ (scanRel_step _ _ _ h)

/-- The two mapper variants agree on membership, first lines and cursors. -/
lemma scanRel_parse (s : String) :
    ScanRel ((splitLines s.toList).foldl scanStep ⟨[], [], 0, 0, false⟩)
      ((splitLines s.toList).foldl setScanStep ⟨[], [], 0, 0, false, none, none⟩) := by
  apply scanRel_foldl
  exact ⟨fun k => Iff.rfl, fun k => Iff.rfl, rfl, rfl, rfl, rfl, rfl⟩

lemma foldl_scanStep_no_header (lines : List (List Char)) :
    ∀ st : ScanState, st.inHunk = false → (∀ l ∈ lines, matchHunkHeader l = none) →
      lines.foldl scanStep st = st := by
  induction lines with
  | nil => intro st _ _; rfl
  | cons l ls ih =>
    intro st hst hall
    have hl : matchHunkHeader l = none := hall l (List.mem_cons_self l ls)
    rw [List.foldl_cons, scanStep_out st l hl hst]
    exact ih st hst (fun x hx => hall x (List.mem_cons_of_mem l hx))

/-- C1: for every diff text the line mapper computes addition and deletion
line numbers exactly per the specification's reference algorithm
(`parseDiffChangedLines` equals the reference; `parseChangedLines` agrees
with it on membership and first-changed lines); a diff with no hunk headers
yields empty sets; and for header `@@ -5,3 +5,4 @@` followed by one context
line and one `+` line, the recovered addition line is 6. -/
theorem C1_line_mapper_matches_spec :
    (∀ s : String, parseDiffChangedLines s = specChangedLines s)
    ∧ (∀ s : String, ∀ k : Nat,
        (k ∈ (parseChangedLines s).newLines ↔ k ∈ (parseDiffChangedLines s).1)
        ∧ (k ∈ (parseChangedLines s).oldLines ↔ k ∈ (parseDiffChangedLines s).2))
    ∧ (∀ s : String,
        (parseChangedLines s).firstNewLine = (parseDiffChangedLines s).1.head?
        ∧ (parseChangedLines s).firstOldLine = (parseDiffChangedLines s).2.head?)
    ∧ (∀ s : String, (∀ l ∈ splitLines s.toList, matchHunkHeader l = none) →
        parseDiffChangedLines s = ([], []))
    ∧ parseDiffChangedLines "@@ -5,3 +5,4 @@\n context\n+added" = ([6], []) := by
  refine ⟨parseDiffChangedLines_eq_spec, ?_, ?_, ?_, by decide⟩
  · intro s k
    have h := scanRel_parse s
    exact ⟨h.memNew k, h.memOld k⟩
  · intro s
    have h := scanRel_parse s
    exact ⟨h.firstNew, h.firstOld⟩
  · intro s hnone
    unfold parseDiffChangedLines
    rw [foldl_scanStep_no_header _ _ rfl hnone]

/-- Witness for `C1_line_mapper_matches_spec`: a header-free diff maps to
empty addition and deletion sets. -/
theorem C1_line_mapper_matches_spec_witness :
    parseDiffChangedLines " context only\nplain" = ([], []) :=
  C1_line_mapper_matches_spec.2.2.2.1 " context only\nplain" (by decide)

/-! ## HTTP error classification (services/net/errors.ts, http-client.ts) -/

/-- The `provider` discriminator carried by `ServiceError`. -/
inductive ErrProvider
  | openai
  | system
deriving DecidableEq

/-- `ServiceError` from `errors.ts`. -/
structure ServiceError where
  provider : ErrProvider
  status : Option Nat
  code : Option String
  message : String
  requestId : Option String
  retryable : Bool
deriving DecidableEq

/-- `isRetryableStatus(status?)` from `errors.ts`:
`!status || status === 429 || (status >= 500 && status < 600)`.
JS `!status` is truthiness, so it holds for `undefined` and for `0`. -/
def isRetryableStatus (status : Option Nat) : Bool :=
  match status with
  | none => true
  | some s => s == 0 || s == 429 || (500 ≤ s && s < 600)

/-- `createServiceError` from `errors.ts`. -/
def createServiceError (provider : ErrProvider) (status : Option Nat)
    (code : Option String) (message : String) (requestId : Option String) : ServiceError :=
  { provider := provider, status := status, code := code, message := message,
    requestId := requestId, retryable := isRetryableStatus status }

/-- What `request` throws on a non-ok response: the classified `ServiceError`,
plus the `.status` field attached to the thrown `Error` exactly when the
status is retryable (http-client.ts lines 98-114). -/
structure HttpFailure where
  serviceError : ServiceError
  statusField : Option Nat
deriving DecidableEq

/-- The executor's non-ok-response error path. -/
def requestFailure (provider : ErrProvider) (status : Nat) (errorText : String) : HttpFailure :=
  let serviceError := createServiceError provider (some status) none
    ("HTTP " ++ toString status ++ ": " ++ errorText) none
  { serviceError := serviceError,
    statusField := if isRetryableStatus (some status) then some status else none }

/-- Retryability exactly as claim C3 words it: status absent, 429, or in the
half-open interval [500,599). -/
def claimC3Retryable (status : Option Nat) : Bool :=
  match status with
  | none => true
  | some s => s == 429 || (500 ≤ s && s < 599)

/-- C3 counterexample: at status 599 the executor marks the ServiceError
retryable (the source tests `status < 600`), while the claim's predicate —
status absent, 429, or in [500,599) — rejects 599. -/
theorem C3_counterexample_status_599 :
    (createServiceError .system (some 599) none "HTTP 599: " none).retryable = true
    ∧ claimC3Retryable (some 599) = false := by
  constructor <;> rfl

/-- C3 amended: the ServiceError built by the request executor has
`retryable = true` iff the status is absent, is `0` (JS-falsy, grouped with
network failures by `!status`), equals 429, or lies in [500,600) — i.e.
500..599 inclusive; and for every retryable status the thrown error carries
that status in its `.status` field for the retry layer. -/
theorem C3_amended_retryable_iff :
    (∀ provider status code message requestId,
      (createServiceError provider status code message requestId).retryable = true
        ↔ (status = none ∨ status = some 0 ∨ status = some 429
            ∨ ∃ s, status = some s ∧ 500 ≤ s ∧ s < 600))
    ∧ (∀ provider s errorText, isRetryableStatus (some s) = true →
        (requestFailure provider s errorText).statusField = some s) := by
  constructor
  · intro provider status code message requestId
    show isRetryableStatus status = true ↔ _
    cases status with
    | none => simp [isRetryableStatus]
    | some s =>
      simp only [isRetryableStatus, Bool.or_eq_true, beq_iff_eq, Bool.and_eq_true,
        decide_eq_true_eq, Option.some.injEq, reduceCtorEq, false_or]
      constructor
      · rintro ((rfl | rfl) | ⟨h5, h6⟩)
        · exact Or.inl rfl
        · exact Or.inr (Or.inl rfl)
        · exact Or.inr (Or.inr ⟨s, rfl, h5, h6⟩)
      · rintro (rfl | rfl | ⟨t, ht, h5, h6⟩)
        · exact Or.inl (Or.inl rfl)
        · exact Or.inl (Or.inr rfl)
        · cases ht
          exact Or.inr ⟨h5, h6⟩
  · intro provider s errorText h
    unfold requestFailure
    simp [h]

/-- Witness for `C3_amended_retryable_iff`: status 503 is retryable and is
carried on the thrown error. -/
theorem C3_amended_retryable_iff_witness :
    isRetryableStatus (some 503) = true
    ∧ (requestFailure .system 503 "").statusField = some 503 :=
  ⟨by decide, C3_amended_retryable_iff.2 .system 503 "" (by decide)⟩

/-! ## Retry policy (services/net/retry-policy.ts) -/

/-- A JS error value as the retry layer inspects it: whether it is a
network-flavoured TypeError, whether it is an AbortError DOMException, and
its optional `status` / `retryable` fields. -/
structure JsError where
  netTypeError : Bool
  abortError : Bool
  status : Option Nat
  retryableField : Option Bool
deriving DecidableEq

/-- `isNetworkError` from `errors.ts`: a TypeError with a network-ish message,
or an AbortError DOMException. -/
def isNetworkError (e : JsError) : Bool := e.netTypeError || e.abortError

/-- `defaultShouldRetry` from `retry-policy.ts`: network errors retry; then a
numeric `status` field decides via `isRetryableStatus`; then a `retryable`
field decides; otherwise no retry. -/
def defaultShouldRetry (e : JsError) : Bool :=
  if isNetworkError e then true
  else match e.status with
    | some s => isRetryableStatus (some s)
    | none =>
      match e.retryableField with
      | some r => r
      | none => false

/-- The `for (attempt = 0; attempt <= maxRetries; ...)` loop of `withRetry`:
`fn i` is the outcome of the i-th invocation, `remaining = maxRetries -
attempt`. Returns the settled outcome and the number of invocations made;
the backoff sleep only affects timing and is not modelled. -/
def withRetryGo (fn : Nat → Except JsError α) (shouldRetry : JsError → Bool) :
    Nat → Nat → Except JsError α × Nat
  | attempt, remaining =>
    match fn attempt with
    | .ok a => (.ok a, attempt + 1)
    | .error e =>
      match remaining with
      | 0 => (.error e, attempt + 1)
      | r + 1 =>
        if !shouldRetry e then (.error e, attempt + 1)
        else if e.abortError then (.error e, attempt + 1)
        else withRetryGo fn shouldRetry (attempt + 1) r

/-- `withRetry(fn, {maxRetries})` with the default retry predicate. -/
def withRetry (fn : Nat → Except JsError α) (maxRetries : Nat) : Except JsError α × Nat :=
  withRetryGo fn defaultShouldRetry 0 maxRetries

lemma defaultShouldRetry_of_status (e : JsError) (s : Nat) (h : e.status = some s)
    (hs : isRetryableStatus (some s) = true) : defaultShouldRetry e = true := by
  unfold defaultShouldRetry
  by_cases hn : isNetworkError e = true
  · simp [hn]
  · simp only [Bool.not_eq_true] at hn
    simp only [hn, Bool.false_eq_true, if_false, h]
    exact hs

lemma defaultShouldRetry_not_of_status (e : JsError) (s : Nat) (h : e.status = some s)
    (hnet : e.netTypeError = false) (habort : e.abortError = false)
    (hs : isRetryableStatus (some s) = false) : defaultShouldRetry e = false := by
  unfold defaultShouldRetry isNetworkError
  simp only [hnet, habort, Bool.or_self, Bool.false_eq_true, if_false, h]
  exact hs

/-- C2: `withRetry` with maxRetries = 2 on a function failing twice with
status 503 and then succeeding resolves with the success value after exactly
3 invocations; on a function failing with status 404 it invokes exactly once
and rethrows; every non-429 plain 4xx likewise propagates after one
invocation; network errors, 429 and 5xx are retried; a cancellation
(AbortError) is never retried. -/
theorem C2_withRetry_behaviour {α : Type} :
    (∀ (fn : Nat → Except JsError α) (v : α) (e : JsError),
      fn 0 = .error e → fn 1 = .error e → fn 2 = .ok v →
      e.status = some 503 → e.abortError = false →
      withRetry fn 2 = (.ok v, 3))
    ∧ (∀ (fn : Nat → Except JsError α) (e : JsError),
      fn 0 = .error e → e.status = some 404 →
      e.netTypeError = false → e.abortError = false →
      withRetry fn 2 = (.error e, 1))
    ∧ (∀ (fn : Nat → Except JsError α) (e : JsError) (s : Nat),
      fn 0 = .error e → e.status = some s →
      400 ≤ s → s < 500 → s ≠ 429 →
      e.netTypeError = false → e.abortError = false →
      withRetry fn 2 = (.error e, 1))
    ∧ (∀ (fn : Nat → Except JsError α) (v : α) (e : JsError),
      fn 0 = .error e → fn 1 = .ok v → e.abortError = false →
      (e.netTypeError = true ∨ e.status = some 429
        ∨ ∃ s, e.status = some s ∧ 500 ≤ s ∧ s < 600) →
      withRetry fn 2 = (.ok v, 2))
    ∧ (∀ (maxRetries : Nat) (fn : Nat → Except JsError α) (e : JsError),
      fn 0 = .error e → e.abortError = true →
      withRetry fn maxRetries = (.error e, 1)) := by
  refine ⟨?_, ?_, ?_, ?_, ?_⟩
  · intro fn v e h0 h1 h2 hs ha
    have hsr : defaultShouldRetry e = true :=
      defaultShouldRetry_of_status e 503 hs (by decide)
    unfold withRetry
    rw [withRetryGo, h0]
    simp only [hsr, Bool.not_true, Bool.false_eq_true, if_false, ha]
    rw [withRetryGo, h1]
    simp only [hsr, Bool.not_true, Bool.false_eq_true, if_false, ha]
    rw [withRetryGo, h2]
  · intro fn e h0 hs hnet habort
    have hsr : defaultShouldRetry e = false :=
      defaultShouldRetry_not_of_status e 404 hs hnet habort (by decide)
    unfold withRetry
    rw [withRetryGo, h0]
    simp [hsr]
  · intro fn e s h0 hs h4 h5 h429 hnet habort
    have hnr : isRetryableStatus (some s) = false := by
      simp only [isRetryableStatus, Bool.or_eq_false_iff, beq_eq_false_iff_ne,
        Bool.and_eq_false_iff, decide_eq_false_iff_not]
      exact ⟨⟨by omega, h429⟩, Or.inl (by omega)⟩
    have hsr : defaultShouldRetry e = false :=
      defaultShouldRetry_not_of_status e s hs hnet habort hnr
    unfold withRetry
    rw [withRetryGo, h0]
    simp [hsr]
  · intro fn v e h0 h1 ha hkind
    have hsr : defaultShouldRetry e = true := by
      rcases hkind with hn | hs | ⟨s, hs, h5, h6⟩
      · unfold defaultShouldRetry isNetworkError
        simp [hn]
      · exact defaultShouldRetry_of_status e 429 hs (by decide)
      · refine defaultShouldRetry_of_status e s hs ?_
        simp only [isRetryableStatus, Bool.or_eq_true, Bool.and_eq_true, decide_eq_true_eq]
        exact Or.inr ⟨h5, h6⟩
    unfold withRetry
    rw [withRetryGo, h0]
    simp only [hsr, Bool.not_true, Bool.false_eq_true, if_false, ha]
    rw [withRetryGo, h1]
  · intro maxRetries fn e h0 ha
    have hsr : defaultShouldRetry e = true := by
      unfold defaultShouldRetry isNetworkError
      simp [ha]
    unfold withRetry
    cases maxRetries with
    | zero => rw [withRetryGo, h0]
    | succ r =>
      rw [withRetryGo, h0]
      simp [hsr, ha]

/-- A 503 server error, as the executor would throw it. -/
def err503 : JsError := ⟨false, false, some 503, none⟩

/-- A 404 client error, as the executor would throw it. -/
def err404 : JsError := ⟨false, false, some 404, none⟩

/-- Witness for `C2_withRetry_behaviour`: the 503-twice-then-success and the
404 scenarios at concrete functions. -/
theorem C2_withRetry_behaviour_witness :
    withRetry (fun i => if i < 2 then .error err503 else .ok 7) 2 = (.ok 7, 3)
    ∧ withRetry (fun _ => (.error err404 : Except JsError Nat)) 2 = (.error err404, 1) :=
  ⟨C2_withRetry_behaviour.1 (fun i => if i < 2 then .error err503 else .ok 7) 7 err503
      rfl rfl rfl rfl rfl,
    C2_withRetry_behaviour.2.1 (fun _ => .error err404) err404 rfl rfl rfl rfl⟩

/-! ## Batch review orchestrator (hooks/useFileAIReview) -/

/-- An AI review result; only its presence matters to the orchestrator. -/
structure AIReviewResult where
  summary : String
deriving DecidableEq

/-- Per-file review state of the hook. -/
structure FileReviewState where
  loading : Bool
  result : Option AIReviewResult
  error : Option String
deriving DecidableEq

/-- The idle per-file state (`getFileState`'s default for absent entries). -/
def idleFileState : FileReviewState := ⟨false, none, none⟩

/-- The per-path state map; absent entries read as idle. -/
def FilesMap : Type := String → FileReviewState

/-- `getFileState` of the hook. -/
def getFileState (files : FilesMap) (filePath : String) : FileReviewState :=
  files filePath

/-- `updateFileState` with a full record (every call site sets all fields). -/
def setFileState (files : FilesMap) (filePath : String) (st : FileReviewState) : FilesMap :=
  fun p => if p = filePath then st else files p

/-- `pendingRequests.current.add(filePath)` (JS `Set.add`). -/
def pendingAdd (pending : List String) (filePath : String) : List String :=
  if pending.contains filePath then pending else pending ++ [filePath]

/-- `pendingRequests.current.delete(filePath)` (JS `Set.delete`). -/
def pendingDelete (pending : List String) (filePath : String) : List String :=
  pending.filter (fun q => !(q == filePath))

/-- Result of one `reviewFile` call: the returned boolean, the pending set
and files map after the call settles, and how many backend invocations the
call made. -/
structure ReviewFileResult where
  success : Bool
  pending : List String
  files : FilesMap
  calls : Nat

/-- `reviewFile`: rejected when a request for the path is already pending;
otherwise marks the path pending, sets loading, settles with the backend
outcome (the `executeReview` value or the thrown message), records it, and
finally clears the pending marker. The `duration` stamp added to successful
results is wall-clock time and is outside the embedding. -/
def reviewFile (pending : List String) (files : FilesMap) (filePath : String)
    (outcome : Except String AIReviewResult) : ReviewFileResult :=
  if pending.contains filePath then
    { success := false, pending := pending, files := files, calls := 0 }
  else
    let pending1 := pendingAdd pending filePath
    let files1 := setFileState files filePath ⟨true, none, none⟩
    match outcome with
    | .ok r =>
      { success := true,
        pending := pendingDelete pending1 filePath,
        files := setFileState files1 filePath ⟨false, some r, none⟩,
        calls := 1 }
    | .error e =>
      { success := false,
        pending := pendingDelete pending1 filePath,
        files := setFileState files1 filePath ⟨false, none, some e⟩,
        calls := 1 }

/-- `clearFileResult`: reset one file to the idle state. -/
def clearFileResult (files : FilesMap) (filePath : String) : FilesMap :=
  setFileState files filePath ⟨false, none, none⟩

/-- `BatchReviewState` from the hook. -/
structure BatchReviewState where
  running : Bool
  total : Nat
  completed : Nat
  failed : Nat
  currentFilePath : Option String
  stopped : Bool
deriving DecidableEq

/-- The `GitLabDiff` fields the queue builder reads; absent strings are `""`
(JS falsy). -/
structure GitLabDiff where
  old_path : String
  new_path : String
  diff : String
deriving DecidableEq

/-- One queue entry: path `new_path || old_path || ""` (skipped when empty)
and the re-hydrated diff document with synthetic file headers. -/
def buildQueueItem (change : GitLabDiff) : Option (String × String) :=
  let filePath := if change.new_path ≠ "" then change.new_path
    else if change.old_path ≠ "" then change.old_path else ""
  if filePath = "" then none
  else some (filePath,
    "--- a/" ++ change.old_path ++ "\n+++ b/" ++ change.new_path ++ "\n" ++ change.diff)

/-- The queue built at the top of `reviewAllFiles`. -/
def buildReviewQueue (changes : List GitLabDiff) : List (String × String) :=
  changes.filterMap buildQueueItem

/-- Whether the cooperative stop has been observed: `stopAfter = some j`
means the run id changed after `j` files had been fully processed (a stop
requested while a file is in flight is first seen at the following check),
so the pre-file check sees it from iteration `j` on. -/
def stopSeen (stopAfter : Option Nat) (processed : Nat) : Bool :=
  match stopAfter with
  | none => false
  | some j => j ≤ processed

/-- Outcome of the batch loop. -/
structure BatchLoopResult where
  batch : BatchReviewState
  files : FilesMap
  pending : List String
  invoked : Nat

/-- The `for (const item of reviewQueue)` loop of `reviewAllFiles`: before
each file the run id is checked (exit with `stopped := true` if it changed);
otherwise the file is reviewed, the counters and batch state updated, and
the loop continues. `exec i` is the outcome of the i-th backend invocation. -/
def batchLoop (stopAfter : Option Nat) (exec : Nat → Except String AIReviewResult) :
    List (String × String) → Nat → Nat → Nat → Nat → List String → FilesMap →
    BatchReviewState → BatchLoopResult
  | [], _, _, _, invoked, pending, files, bst =>
    ⟨{ bst with running := false, currentFilePath := none }, files, pending, invoked⟩
  | (filePath, _) :: rest, idx, completed, failed, invoked, pending, files, bst =>
    if stopSeen stopAfter idx then
      ⟨{ bst with running := false, currentFilePath := none, stopped := true },
        files, pending, invoked⟩
    else
      let bst1 := { bst with currentFilePath := some filePath }
      let r := reviewFile pending files filePath (exec invoked)
      let completed1 := if r.success then completed + 1 else completed
      let failed1 := if r.success then failed else failed + 1
      batchLoop stopAfter exec rest (idx + 1) completed1 failed1 (invoked + r.calls)
        r.pending r.files { bst1 with completed := completed1, failed := failed1 }

/-- Outcome of a whole `reviewAllFiles` call. -/
structure ReviewAllResult where
  batch : BatchReviewState
  files : FilesMap
  invoked : Nat
  runId : Nat

/-- `reviewAllFiles`: early-returns when a batch is already running;
otherwise builds the queue, takes a fresh run id, initializes the batch
state and runs the loop. -/
def reviewAllFiles (alreadyRunning : Bool) (runId : Nat) (changes : List GitLabDiff)
    (exec : Nat → Except String AIReviewResult) (stopAfter : Option Nat)
    (pending : List String) (files : FilesMap) (bst : BatchReviewState) : ReviewAllResult :=
  if alreadyRunning then ⟨bst, files, 0, runId⟩
  else
    let queue := buildReviewQueue changes
    let r := batchLoop stopAfter exec queue 0 0 0 0 pending files
      ⟨true, queue.length, 0, 0, none, false⟩
    ⟨r.batch, r.files, r.invoked, runId + 1⟩

/-- `stopBatchReview`: bump the run id only while a batch is running. -/
def stopBatchReview (running : Bool) (runId : Nat) : Nat :=
  if running then runId + 1 else runId

/-- Successful outcomes among invocations `start .. start+n-1`. -/
def okCount (exec : Nat → Except String AIReviewResult) : Nat → Nat → Nat
  | _, 0 => 0
  | start, n + 1 =>
    (match exec start with | .ok _ => 1 | .error _ => 0) + okCount exec (start + 1) n

/-- Failing outcomes among invocations `start .. start+n-1`. -/
def failCount (exec : Nat → Except String AIReviewResult) : Nat → Nat → Nat
  | _, 0 => 0
  | start, n + 1 =>
    (match exec start with | .ok _ => 0 | .error _ => 1) + failCount exec (start + 1) n

lemma okCount_add_failCount (exec : Nat → Except String AIReviewResult) :
    ∀ n start, okCount exec start n + failCount exec start n = n := by
  intro n
  induction n with
  | zero => intro start; rfl
  | succ m ih =>
    intro start
    have h2 := ih (start + 1)
    unfold okCount failCount
    cases h : exec start <;> simp [h] <;> omega

lemma reviewFile_ok (files : FilesMap) (filePath : String) (r : AIReviewResult) :
    reviewFile [] files filePath (.ok r) =
      ⟨true, [],
        setFileState (setFileState files filePath ⟨true, none, none⟩) filePath
          ⟨false, some r, none⟩, 1⟩ := by
  unfold reviewFile pendingAdd pendingDelete
  simp [List.filter]

lemma reviewFile_error (files : FilesMap) (filePath : String) (e : String) :
    reviewFile [] files filePath (.error e) =
      ⟨false, [],
        setFileState (setFileState files filePath ⟨true, none, none⟩) filePath
          ⟨false, none, some e⟩, 1⟩ := by
  unfold reviewFile pendingAdd pendingDelete
  simp [List.filter]

lemma batchLoop_none_run (exec : Nat → Except String AIReviewResult)
    (queue : List (String × String)) :
    ∀ (idx completed failed invoked : Nat) (files : FilesMap) (bst : BatchReviewState),
      bst.completed = completed → bst.failed = failed →
      (batchLoop none exec queue idx completed failed invoked [] files bst).batch =
        ⟨false, bst.total, completed + okCount exec invoked queue.length,
          failed + failCount exec invoked queue.length, none, bst.stopped⟩
      ∧ (batchLoop none exec queue idx completed failed invoked [] files bst).invoked
          = invoked + queue.length := by
  induction queue with
  | nil =>
    intro idx completed failed invoked files bst hc hf
    constructor
    · show ({ bst with running := false, currentFilePath := none } : BatchReviewState) = _
      rw [← hc, ← hf]
      rfl
    · rfl
  | cons hd tl ih =>
    intro idx completed failed invoked files bst hc hf
    obtain ⟨filePath, doc⟩ := hd
    rw [batchLoop]
    have hstop : stopSeen none idx = false := rfl
    rw [hstop]
    simp only [Bool.false_eq_true, if_false]
    cases hex : exec invoked with
    | ok r =>
      rw [reviewFile_ok]
      have key := ih (idx + 1) (completed + 1) failed (invoked + 1)
        (setFileState (setFileState files filePath ⟨true, none, none⟩) filePath
          ⟨false, some r, none⟩)
        { bst with currentFilePath := some filePath, completed := completed + 1,
                   failed := failed } rfl rfl
      simp only [List.length_cons, okCount, failCount, hex, reduceIte,
        Bool.false_eq_true, if_false]
      constructor
      · rw [key.1]
        simp only [BatchReviewState.mk.injEq, true_and, and_true]
        constructor <;> omega
      · rw [key.2]
        omega
    | error e =>
      rw [reviewFile_error]
      have key := ih (idx + 1) completed (failed + 1) (invoked + 1)
        (setFileState (setFileState files filePath ⟨true, none, none⟩) filePath
          ⟨false, none, some e⟩)
        { bst with currentFilePath := some filePath, completed := completed,
                   failed := failed + 1 } rfl rfl
      simp only [List.length_cons, okCount, failCount, hex, reduceIte,
        Bool.false_eq_true, if_false]
      constructor
      · rw [key.1]
        simp only [BatchReviewState.mk.injEq, true_and, and_true]
        constructor <;> omega
      · rw [key.2]
        omega

lemma batchLoop_stopped_run (exec : Nat → Except String AIReviewResult) :
    ∀ (queue : List (String × String)) (k idx completed failed invoked : Nat)
      (files : FilesMap) (bst : BatchReviewState),
      bst.completed = completed → bst.failed = failed → k < queue.length →
      (batchLoop (some (idx + k)) exec queue idx completed failed invoked [] files bst).batch =
        ⟨false, bst.total, completed + okCount exec invoked k,
          failed + failCount exec invoked k, none, true⟩
      ∧ (batchLoop (some (idx + k)) exec queue idx completed failed invoked [] files
          bst).invoked = invoked + k := by
  intro queue
  induction queue with
  | nil =>
    intro k idx completed failed invoked files bst hc hf hk
    exact absurd hk (by simp)
  | cons hd tl ih =>
    intro k idx completed failed invoked files bst hc hf hk
    obtain ⟨filePath, doc⟩ := hd
    cases k with
    | zero =>
      rw [batchLoop]
      have hstop : stopSeen (some (idx + 0)) idx = true := by simp [stopSeen]
      rw [hstop]
      simp only [reduceIte]
      rw [← hc, ← hf]
      exact ⟨rfl, rfl⟩
    | succ j =>
      rw [batchLoop]
      have hstop : stopSeen (some (idx + (j + 1))) idx = false := by
        simp [stopSeen]
      rw [hstop]
      simp only [Bool.false_eq_true, if_false]
      have hj : j < tl.length := by
        simp only [List.length_cons] at hk
        omega
      have harg : idx + (j + 1) = (idx + 1) + j := by omega
      rw [harg]
      cases hex : exec invoked with
      | ok r =>
        rw [reviewFile_ok]
        have key := ih j (idx + 1) (completed + 1) failed (invoked + 1)
          (setFileState (setFileState files filePath ⟨true, none, none⟩) filePath
            ⟨false, some r, none⟩)
          { bst with currentFilePath := some filePath, completed := completed + 1,
                     failed := failed } rfl rfl hj
        simp only [okCount, failCount, hex, reduceIte]
        constructor
        · rw [key.1]
          simp only [BatchReviewState.mk.injEq, true_and, and_true]
          constructor <;> omega
        · rw [key.2]
          omega
      | error e =>
        rw [reviewFile_error]
        have key := ih j (idx + 1) completed (failed + 1) (invoked + 1)
          (setFileState (setFileState files filePath ⟨true, none, none⟩) filePath
            ⟨false, none, some e⟩)
          { bst with currentFilePath := some filePath, completed := completed,
                     failed := failed + 1 } rfl rfl hj
        simp only [okCount, failCount, hex, reduceIte, Bool.false_eq_true, if_false]
        constructor
        · rw [key.1]
          simp only [BatchReviewState.mk.injEq, true_and, and_true]
          constructor <;> omega
        · rw [key.2]
          omega

/-- C4: a batch run over the N queued files with no stop terminates with
completed = N - K and failed = K, where K counts the failing per-file
reviews, with running = false and stopped = false; all N queued files are
attempted (N backend invocations); and a failing file's review error is
captured in that file's per-file state (loading cleared, error recorded)
with a false return flag — nothing is thrown, so a failure never aborts the
batch. -/
theorem C4_batch_failures_counted :
    (∀ (changes : List GitLabDiff) (exec : Nat → Except String AIReviewResult)
       (runId : Nat) (files : FilesMap) (bst : BatchReviewState),
      (reviewAllFiles false runId changes exec none [] files bst).batch =
        ⟨false, (buildReviewQueue changes).length,
          (buildReviewQueue changes).length
            - failCount exec 0 (buildReviewQueue changes).length,
          failCount exec 0 (buildReviewQueue changes).length, none, false⟩
      ∧ (reviewAllFiles false runId changes exec none [] files bst).invoked
          = (buildReviewQueue changes).length)
    ∧ (∀ (files : FilesMap) (filePath e : String),
        reviewFile [] files filePath (.error e) =
          ⟨false, [],
            setFileState (setFileState files filePath ⟨true, none, none⟩) filePath
              ⟨false, none, some e⟩, 1⟩) := by
  constructor
  · intro changes exec runId files bst
    unfold reviewAllFiles
    simp only [Bool.false_eq_true, if_false]
    have key := batchLoop_none_run exec (buildReviewQueue changes) 0 0 0 0 files
      ⟨true, (buildReviewQueue changes).length, 0, 0, none, false⟩ rfl rfl
    have hsum := okCount_add_failCount exec (buildReviewQueue changes).length 0
    constructor
    · rw [key.1]
      simp only [BatchReviewState.mk.injEq, true_and, and_true]
      constructor <;> omega
    · rw [key.2]
      omega
  · intro files filePath e
    exact reviewFile_error files filePath e

/-- C5: every batch run takes a strictly larger run id; `stopBatchReview`
while a batch runs increments the id; and a stop observed after k of the N
queued files (cancellation is cooperative: the in-flight file finishes and
is counted first) ends the run with stopped = true, running = false, the
counters frozen at the first k outcomes, and exactly k backend invocations —
no file beyond the in-flight one is ever started. -/
theorem C5_stop_is_cooperative :
    (∀ (changes : List GitLabDiff) (exec : Nat → Except String AIReviewResult)
       (runId k : Nat) (files : FilesMap) (bst : BatchReviewState),
      k < (buildReviewQueue changes).length →
      (reviewAllFiles false runId changes exec (some k) [] files bst).batch =
        ⟨false, (buildReviewQueue changes).length,
          okCount exec 0 k, failCount exec 0 k, none, true⟩
      ∧ (reviewAllFiles false runId changes exec (some k) [] files bst).invoked = k
      ∧ (reviewAllFiles false runId changes exec (some k) [] files bst).runId = runId + 1
      ∧ runId < (reviewAllFiles false runId changes exec (some k) [] files bst).runId)
    ∧ (∀ runId, stopBatchReview true runId = runId + 1
        ∧ runId < stopBatchReview true runId) := by
  constructor
  · intro changes exec runId k files bst hk
    unfold reviewAllFiles
    simp only [Bool.false_eq_true, if_false]
    have key := batchLoop_stopped_run exec (buildReviewQueue changes) k 0 0 0 0 files
      ⟨true, (buildReviewQueue changes).length, 0, 0, none, false⟩ rfl rfl hk
    rw [Nat.zero_add] at key
    refine ⟨?_, ?_, ?_, ?_⟩
    · rw [key.1]
      simp only [BatchReviewState.mk.injEq, true_and, and_true]
      constructor <;> omega
    · rw [key.2]
    · trivial
    · omega
  · intro runId
    exact ⟨rfl, by simp [stopBatchReview]⟩

/-- A changed file used in concrete batch scenarios. -/
def sampleDiffA : GitLabDiff := ⟨"a.txt", "a.txt", "@@ -1 +1 @@\n+x"⟩

/-- A second changed file used in concrete batch scenarios. -/
def sampleDiffB : GitLabDiff := ⟨"b.txt", "b.txt", "@@ -1 +1 @@\n+y"⟩

/-- Witness for `C5_stop_is_cooperative`: stopping after file 1 of 2 starts
no further file and ends stopped. -/
theorem C5_stop_is_cooperative_witness :
    1 < (buildReviewQueue [sampleDiffA, sampleDiffB]).length
    ∧ (reviewAllFiles false 5 [sampleDiffA, sampleDiffB] (fun _ => .ok ⟨"ok"⟩)
        (some 1) [] (fun _ => idleFileState) ⟨false, 0, 0, 0, none, false⟩).invoked = 1 :=
  ⟨by decide,
    (C5_stop_is_cooperative.1 [sampleDiffA, sampleDiffB] (fun _ => .ok ⟨"ok"⟩) 5 1
      (fun _ => idleFileState) ⟨false, 0, 0, 0, none, false⟩ (by decide)).2.1⟩

lemma pendingDelete_pendingAdd (pending : List String) (p : String)
    (h : pending.contains p = false) :
    pendingDelete (pendingAdd pending p) p = pending := by
  have hnm : p ∉ pending := by simpa using h
  have hfix : pending.filter (fun q => !(q == p)) = pending := by
    apply List.filter_eq_self.mpr
    intro q hq
    have hne : q ≠ p := fun heq => hnm (heq ▸ hq)
    simp [hne]
  unfold pendingAdd pendingDelete
  rw [h]
  simp only [Bool.false_eq_true, if_false, List.filter_append, hfix]
  simp

lemma reviewFile_not_pending_eval (pending : List String) (files : FilesMap)
    (filePath : String) (outcome : Except String AIReviewResult)
    (h : pending.contains filePath = false) :
    reviewFile pending files filePath outcome =
      ⟨outcome.isOk, pendingDelete (pendingAdd pending filePath) filePath,
        setFileState (setFileState files filePath ⟨true, none, none⟩) filePath
          (match outcome with
            | .ok r => ⟨false, some r, none⟩
            | .error e => ⟨false, none, some e⟩), 1⟩ := by
  unfold reviewFile
  rw [h]
  simp only [Bool.false_eq_true, if_false]
  cases outcome <;> rfl

/-- C6: at most one review call is in flight per path. A `reviewFile` call
for a path with a pending request is rejected — false is returned, nothing
is invoked, no state changes; a call for a free path makes exactly one
backend invocation, and once it settles (success or error) the pending
marker is cleared (the pending set returns to its pre-call value), loading
is off, and a subsequent call for the same path is accepted again;
`clearFileResult` resets the file to Idle. -/
theorem C6_single_flight_per_file :
    (∀ (pending : List String) (files : FilesMap) (filePath : String)
       (outcome : Except String AIReviewResult),
      pending.contains filePath = true →
      reviewFile pending files filePath outcome = ⟨false, pending, files, 0⟩)
    ∧ (∀ (pending : List String) (files : FilesMap) (filePath : String)
       (outcome : Except String AIReviewResult),
      pending.contains filePath = false →
      (reviewFile pending files filePath outcome).calls = 1
      ∧ (reviewFile pending files filePath outcome).pending = pending
      ∧ ((reviewFile pending files filePath outcome).files filePath).loading = false
      ∧ (reviewFile (reviewFile pending files filePath outcome).pending
          (reviewFile pending files filePath outcome).files filePath outcome).calls = 1)
    ∧ (∀ (files : FilesMap) (filePath : String),
        getFileState (clearFileResult files filePath) filePath = idleFileState) := by
  refine ⟨?_, ?_, ?_⟩
  · intro pending files filePath outcome h
    unfold reviewFile
    rw [h]
    simp
  · intro pending files filePath outcome h
    rw [reviewFile_not_pending_eval pending files filePath outcome h,
      pendingDelete_pendingAdd pending filePath h]
    refine ⟨rfl, rfl, ?_, ?_⟩
    · cases outcome <;> simp [setFileState]
    · rw [reviewFile_not_pending_eval pending _ filePath outcome h]
  · intro files filePath
    simp [getFileState, clearFileResult, setFileState, idleFileState]

/-- Witness for `C6_single_flight_per_file`: a pending path is rejected, a
free path is accepted with one backend call. -/
theorem C6_single_flight_per_file_witness :
    reviewFile ["a.txt"] (fun _ => idleFileState) "a.txt" (.ok ⟨"r"⟩)
        = ⟨false, ["a.txt"], fun _ => idleFileState, 0⟩
    ∧ (reviewFile [] (fun _ => idleFileState) "a.txt" (.ok ⟨"r"⟩)).calls = 1 :=
  ⟨C6_single_flight_per_file.1 ["a.txt"] (fun _ => idleFileState) "a.txt" (.ok ⟨"r"⟩) rfl,
    ((C6_single_flight_per_file.2.1 [] (fun _ => idleFileState) "a.txt" (.ok ⟨"r"⟩)) rfl).1⟩

/-! ## Review author attribution (getReviewAuthorData, both adapters)

Both adapters sort the review's commits ascending by timestamp and then run
`commits.map(async ...)` under `Promise.all`; every callback awaits the
per-commit diff fetch before writing into the shared line-committer maps, so
the writes land in the order the fetch responses arrive — which the runtime
does not constrain to the sorted order. The arrival order is therefore an
explicit parameter of the embedding. -/

/-- `CommitAuthorInfo` recorded per changed line. -/
structure CommitAuthorInfo where
  commitId : String
  authorName : String
  title : String
  createdAt : Nat
deriving DecidableEq

/-- One commit of the review: metadata plus its per-file patches
(GitHub: `files[].filename/patch`; GitLab: the commit diff entries after the
`new_path || old_path` selection). Timestamps are `Date.parse` values. -/
structure RawCommit where
  id : String
  author_name : String
  title : String
  created_at : Nat
  files : List (String × String)
deriving DecidableEq

/-- Per-file line-committer maps, additions and deletions separately. -/
structure FileLineCommitters where
  additions : Nat → Option CommitAuthorInfo
  deletions : Nat → Option CommitAuthorInfo

/-- The whole `lineCommitters` record; absent files read as empty maps. -/
def LineCommittersMap : Type := String → FileLineCommitters

/-- A file with no recorded lines. -/
def emptyFileLineCommitters : FileLineCommitters := ⟨fun _ => none, fun _ => none⟩

/-- The `CommitAuthorInfo` one commit contributes. -/
def commitInfoOf (c : RawCommit) : CommitAuthorInfo :=
  ⟨c.id, c.author_name, c.title, c.created_at⟩

/-- All line writes of one commit: per file, every line recovered by the
line mapper is overwritten with this commit's info. -/
def applyCommitWrites (m : LineCommittersMap) (c : RawCommit) : LineCommittersMap :=
  c.files.foldl (fun acc fp =>
    let changed := parseDiffChangedLines fp.2
    fun p =>
      if p = fp.1 then
        { additions := fun n =>
            if changed.1.contains n then some (commitInfoOf c) else (acc p).additions n,
          deletions := fun n =>
            if changed.2.contains n then some (commitInfoOf c) else (acc p).deletions n }
      else acc p) m

/-- Stable insertion keeping ascending `created_at` order. -/
def insertByDate (c : RawCommit) : List RawCommit → List RawCommit
  | [] => [c]
  | d :: ds =>
    if c.created_at ≤ d.created_at then c :: d :: ds else d :: insertByDate c ds

/-- The adapters' ascending, stable sort of the review commits. -/
def sortByDate : List RawCommit → List RawCommit
  | [] => []
  | c :: cs => insertByDate c (sortByDate cs)

/-- The `lineCommitters` computation of `getReviewAuthorData`: commits are
sorted ascending by timestamp and each commit's writes are applied in the
order the per-commit diff responses arrive (`arrival` lists positions into
the sorted list in completion order). -/
def getReviewAuthorDataLineCommitters (commits : List RawCommit) (arrival : List Nat) :
    LineCommittersMap :=
  let sorted := sortByDate commits
  (arrival.filterMap (fun i => sorted[i]?)).foldl applyCommitWrites
    (fun _ => emptyFileLineCommitters)

/-- The earlier of two commits touching line 1 of f.txt. -/
def commitEarly : RawCommit :=
  ⟨"c-early", "alice", "early change", 0, [("f.txt", "@@ -1 +1 @@\n+a")]⟩

/-- The later of two commits touching line 1 of f.txt. -/
def commitLate : RawCommit :=
  ⟨"c-late", "bob", "late change", 1, [("f.txt", "@@ -1 +1 @@\n+b")]⟩

/-- C7 (code bug): with two commits touching the same addition line, the
final per-line entry is the author of whichever commit's diff response
arrived last, not of the latest commit by timestamp. In-order arrival [0, 1]
yields the later commit's author as the claim states, but arrival [1, 0] —
the later commit's fetch resolving first — leaves the earlier commit's
author, contradicting last-writer-wins-by-timestamp: the sort (whose code
comment asserts it guarantees the overwrite order) does not serialize the
`Promise.all` callbacks, which write in response-arrival order. -/
theorem C7_last_writer_depends_on_arrival :
    ((getReviewAuthorDataLineCommitters [commitEarly, commitLate] [0, 1] "f.txt").additions 1
      = some (commitInfoOf commitLate))
    ∧ ((getReviewAuthorDataLineCommitters [commitEarly, commitLate] [1, 0] "f.txt").additions 1
      = some (commitInfoOf commitEarly))
    ∧ commitInfoOf commitEarly ≠ commitInfoOf commitLate
    ∧ commitEarly.created_at < commitLate.created_at := by
  refine ⟨by decide, by decide, by decide, by decide⟩

/-! ## Comment-position resolution (DiffViewer.tsx)

`extractMentionedLine` runs two regexes in order —
`(?:^|[^\d])XING\s*(\d+)(?!\d)` with the multiline flag (XING standing for
the CJK line-synonym character) and `(?:^|[^\d])line\s*(\d+)(?!\d)` with the
multiline and ignore-case flags. The embedding scans positions left to
right; at each position the zero-width `^` alternative is tried before the
consuming `[^\d]` alternative, exactly the regex engine's order, and the
captured digit run is maximal, which subsumes the `(?!\d)` lookahead. -/

/-- JS `\s` on the ASCII range (comment texts here). -/
def jsSpace (c : Char) : Bool :=
  c = ' ' || c = '\t' || c = '\n' || c = '\r' || c = '\x0b' || c = '\x0c'

/-- Greedy `\s*`. -/
def skipSpacesCs : List Char → List Char
  | [] => []
  | c :: cs => if jsSpace c then skipSpacesCs cs else c :: cs

/-- Match a keyword literally (ASCII-case-insensitively under the `i` flag),
returning the remaining characters. -/
def matchChars (ci : Bool) : List Char → List Char → Option (List Char)
  | [], cs => some cs
  | _ :: _, [] => none
  | k :: ks, c :: cs =>
    if (if ci then k.toLower = c.toLower else k = c) then matchChars ci ks cs else none

/-- The tail `kw\s*(\d+)` at the current position, returning the captured
(maximal) digit run's value. -/
def tryMentionAt (ci : Bool) (kw : List Char) (cs : List Char) : Option Nat :=
  match matchChars ci kw cs with
  | none => none
  | some rest =>
    match readDigits (skipSpacesCs rest) with
    | none => none
    | some (n, _) => some n

/-- Whether `^` (multiline flag) matches after the given preceding char. -/
def atLineStart : Option Char → Bool
  | none => true
  | some c => c = '\n'

/-- Leftmost match of one matcher over the whole text. -/
def scanMention (ci : Bool) (kw : List Char) : Option Char → List Char → Option Nat
  | prev, [] => if atLineStart prev then tryMentionAt ci kw [] else none
  | prev, c :: rest =>
    match (if atLineStart prev then tryMentionAt ci kw (c :: rest) else none) with
    | some n => some n
    | none =>
      match (if !c.isDigit then tryMentionAt ci kw rest else none) with
      | some n => some n
      | none => scanMention ci kw (some c) rest

/-- The CJK line-synonym matcher's keyword. -/
def kwCn : List Char := ['行']

/-- The `line` matcher's keyword. -/
def kwEn : List Char := ['l', 'i', 'n', 'e']

/-- `extractMentionedLine(content)`: matchers tried in order (the CJK one
first, then case-insensitive `line`); a matcher's first match is used only
when its parsed capture is positive, otherwise the next matcher runs. -/
def extractMentionedLine (content : String) : Option Nat :=
  match scanMention false kwCn none content.toList with
  | some n =>
    if 0 < n then some n
    else
      match scanMention true kwEn none content.toList with
      | some m => if 0 < m then some m else none
      | none => none
  | none =>
    match scanMention true kwEn none content.toList with
    | some m => if 0 < m then some m else none
    | none => none

/-- A resolved position: `{ newLine: n }` or `{ oldLine: n }`. -/
inductive DiffAnchor
  | onNew (line : Nat)
  | onOld (line : Nat)
deriving DecidableEq

/-- The fallback of `resolveDiffPosition`: first addition, else first
deletion, else null. -/
def fallbackAnchor (p : ChangedLinesResult) : Option DiffAnchor :=
  match p.firstNewLine with
  | some n => some (.onNew n)
  | none =>
    match p.firstOldLine with
    | some n => some (.onOld n)
    | none => none

/-- `resolveDiffPosition(diff, content)` from DiffViewer.tsx. -/
def resolveDiffPosition (diffText content : String) : Option DiffAnchor :=
  match extractMentionedLine content with
  | some k =>
    if (parseChangedLines diffText).newLines.contains k then some (.onNew k)
    else if (parseChangedLines diffText).oldLines.contains k then some (.onOld k)
    else fallbackAnchor (parseChangedLines diffText)
  | none => fallbackAnchor (parseChangedLines diffText)

/-- Comment-position resolution exactly as the specification words it, over
the specification's reference line sets: a mentioned line in the addition
set anchors as newLine, else in the deletion set as oldLine, else
firstAddition, then firstDeletion, else unanchored. -/
def resolveDiffPositionSpec (diffText content : String) : Option DiffAnchor :=
  match extractMentionedLine content with
  | some k =>
    if (specChangedLines diffText).1.contains k then some (.onNew k)
    else if (specChangedLines diffText).2.contains k then some (.onOld k)
    else
      match (specChangedLines diffText).1.head? with
      | some n => some (.onNew n)
      | none =>
        match (specChangedLines diffText).2.head? with
        | some n => some (.onOld n)
        | none => none
  | none =>
    match (specChangedLines diffText).1.head? with
    | some n => some (.onNew n)
    | none =>
      match (specChangedLines diffText).2.head? with
      | some n => some (.onOld n)
      | none => none

lemma contains_eq_of_mem_iff {l₁ l₂ : List Nat} (h : ∀ k, k ∈ l₁ ↔ k ∈ l₂) (k : Nat) :
    l₁.contains k = l₂.contains k := by
  by_cases hk : k ∈ l₂
  · have h1 : l₁.contains k = true := by simpa using (h k).mpr hk
    have h2 : l₂.contains k = true := by simpa using hk
    rw [h1, h2]
  · have h1 : l₁.contains k = false := by
      simpa using fun hm => hk ((h k).mp hm)
    have h2 : l₂.contains k = false := by simpa using hk
    rw [h1, h2]

/-- Bridge between the DiffViewer parse and the reference parse. -/
lemma parseChanged_bridge (s : String) :
    (∀ k, (parseChangedLines s).newLines.contains k = (specChangedLines s).1.contains k)
    ∧ (∀ k, (parseChangedLines s).oldLines.contains k = (specChangedLines s).2.contains k)
    ∧ (parseChangedLines s).firstNewLine = (specChangedLines s).1.head?
    ∧ (parseChangedLines s).firstOldLine = (specChangedLines s).2.head? := by
  have hrel := scanRel_parse s
  have h1 : (parseDiffChangedLines s).1 = (specChangedLines s).1 := by
    rw [parseDiffChangedLines_eq_spec]
  have h2 : (parseDiffChangedLines s).2 = (specChangedLines s).2 := by
    rw [parseDiffChangedLines_eq_spec]
  refine ⟨?_, ?_, ?_, ?_⟩
  · intro k
    rw [← h1]
    exact contains_eq_of_mem_iff hrel.memNew k
  · intro k
    rw [← h2]
    exact contains_eq_of_mem_iff hrel.memOld k
  · rw [← h1]
    exact hrel.firstNew
  · rw [← h2]
    exact hrel.firstOld

/-- C8: resolution equals the specification's description on every diff text
and comment — mentioned line in the addition set anchors as newLine, else in
the deletion set as oldLine, else firstAddition then firstDeletion; a diff
with no additions and no deletions resolves to null (a general comment); and
the extractor recovers the first number preceded by `line` or the CJK
synonym. -/
theorem C8_resolveDiffPosition_matches_spec :
    (∀ diffText content : String,
      resolveDiffPosition diffText content = resolveDiffPositionSpec diffText content)
    ∧ (∀ diffText content : String,
      (specChangedLines diffText).1 = [] → (specChangedLines diffText).2 = [] →
      resolveDiffPosition diffText content = none)
    ∧ extractMentionedLine "please fix Line 12 and line 9" = some 12
    ∧ extractMentionedLine "nothing mentioned" = none := by
  have main : ∀ diffText content : String,
      resolveDiffPosition diffText content = resolveDiffPositionSpec diffText content := by
    intro d c
    obtain ⟨bn, bo, bfn, bfo⟩ := parseChanged_bridge d
    unfold resolveDiffPosition resolveDiffPositionSpec fallbackAnchor
    cases hm : extractMentionedLine c with
    | none => simp only [bfn, bfo]
    | some k => simp only [bn, bo, bfn, bfo]
  refine ⟨main, ?_, by decide, by decide⟩
  intro d c ha hd
  rw [main d c]
  unfold resolveDiffPositionSpec
  cases hm : extractMentionedLine c with
  | none => simp [ha, hd]
  | some k => simp [ha, hd]

/-- Witness for `C8_resolveDiffPosition_matches_spec`: a header-free diff has
empty change sets and resolves every comment to null. -/
theorem C8_resolveDiffPosition_matches_spec_witness :
    (specChangedLines "no hunks here").1 = []
    ∧ (specChangedLines "no hunks here").2 = []
    ∧ resolveDiffPosition "no hunks here" "line 3" = none :=
  ⟨by decide, by decide,
    C8_resolveDiffPosition_matches_spec.2.1 "no hunks here" "line 3"
      (by decide) (by decide)⟩

/-! ## Provider adapters: review normalization (github-adapter / gitlab-adapter)

Review states are the TS string-union values ("open" | "closed" | "merged" |
"all"); optional TS fields become `Option`, with JS falsiness of the empty
string modelled explicitly. -/

/-- JS `a || b` on an optional string (`undefined` and `""` are falsy). -/
def jsOrDefault (a : Option String) (b : String) : String :=
  match a with
  | some s => if s = "" then b else s
  | none => b

/-- JS `a || undefined` on an optional string. -/
def jsOrUndef (a : Option String) : Option String :=
  match a with
  | some s => if s = "" then none else some s
  | none => none

/-- JS `a || undefined` on a plain string. -/
def jsStrOrUndef (a : String) : Option String :=
  if a = "" then none else some a

/-- Common-model user. -/
structure PlatformUser where
  id : Nat
  username : String
  name : String
  avatarUrl : Option String
  webUrl : Option String
deriving DecidableEq

/-- Common-model diff references. -/
structure DiffRefs where
  baseSha : String
  headSha : String
  startSha : String
deriving DecidableEq

/-- Common-model Review, parametric in the raw provider payload it carries. -/
structure PlatformReview (R : Type) where
  id : Nat
  iid : Nat
  title : String
  description : Option String
  state : String
  sourceBranch : String
  targetBranch : String
  author : PlatformUser
  webUrl : Option String
  createdAt : String
  updatedAt : String
  diffRefs : Option DiffRefs
  _raw : R
deriving DecidableEq

/-- GitHub user payload. -/
structure GitHubUserRaw where
  id : Nat
  login : String
  name : Option String
  avatar_url : String
  html_url : String
deriving DecidableEq

/-- GitHub branch reference (`head` / `base`). -/
structure GitHubBranchRaw where
  ref : String
  sha : String
deriving DecidableEq

/-- GitHub pull-request payload (fields `toReview` reads). -/
structure GitHubPullRaw where
  id : Nat
  number : Nat
  title : String
  body : Option String
  state : String
  merged : Bool
  head : GitHubBranchRaw
  base : GitHubBranchRaw
  user : GitHubUserRaw
  html_url : String
  created_at : String
  updated_at : String
deriving DecidableEq

/-- GitHub `toUser`. -/
def toUserGitHub (raw : GitHubUserRaw) : PlatformUser :=
  { id := raw.id, username := raw.login, name := jsOrDefault raw.name raw.login,
    avatarUrl := some raw.avatar_url, webUrl := some raw.html_url }

/-- GitHub `toReviewState`: merged wins over closed, else open. -/
def toReviewStateGitHub (raw : GitHubPullRaw) : String :=
  if raw.merged then "merged" else if raw.state = "closed" then "closed" else "open"

/-- GitHub `toReview`. -/
def toReviewGitHub (raw : GitHubPullRaw) : PlatformReview GitHubPullRaw :=
  { id := raw.id, iid := raw.number, title := raw.title,
    description := jsOrUndef raw.body,
    state := toReviewStateGitHub raw,
    sourceBranch := raw.head.ref, targetBranch := raw.base.ref,
    author := toUserGitHub raw.user,
    webUrl := some raw.html_url,
    createdAt := raw.created_at, updatedAt := raw.updated_at,
    diffRefs := some ⟨raw.base.sha, raw.head.sha, raw.base.sha⟩,
    _raw := raw }

/-- GitLab user payload. -/
structure GitLabUserRaw where
  id : Nat
  username : String
  name : String
  avatar_url : String
  web_url : String
deriving DecidableEq

/-- GitLab `diff_refs` payload. -/
structure GitLabDiffRefsRaw where
  base_sha : String
  head_sha : String
  start_sha : String
deriving DecidableEq

/-- GitLab merge-request payload (fields `toReview` reads). -/
structure GitLabMRRaw where
  id : Nat
  iid : Nat
  title : String
  description : String
  state : String
  source_branch : String
  target_branch : String
  author : GitLabUserRaw
  web_url : String
  created_at : String
  updated_at : String
  diff_refs : Option GitLabDiffRefsRaw
deriving DecidableEq

/-- GitLab `toUser`. -/
def toUserGitLab (raw : GitLabUserRaw) : PlatformUser :=
  { id := raw.id, username := raw.username, name := raw.name,
    avatarUrl := some raw.avatar_url, webUrl := some raw.web_url }

/-- GitLab `toReviewState`: "opened" normalizes to "open". -/
def toReviewStateGitLab (state : String) : String :=
  if state = "opened" then "open" else state

/-- GitLab `toReview`. -/
def toReviewGitLab (raw : GitLabMRRaw) : PlatformReview GitLabMRRaw :=
  { id := raw.id, iid := raw.iid, title := raw.title,
    description := jsStrOrUndef raw.description,
    state := toReviewStateGitLab raw.state,
    sourceBranch := raw.source_branch, targetBranch := raw.target_branch,
    author := toUserGitLab raw.author,
    webUrl := some raw.web_url,
    createdAt := raw.created_at, updatedAt := raw.updated_at,
    diffRefs := raw.diff_refs.map (fun d => ⟨d.base_sha, d.head_sha, d.start_sha⟩),
    _raw := raw }

/-- Forget the provider payload, keeping every common-model field. -/
def eraseRaw {R : Type} (r : PlatformReview R) : PlatformReview Unit :=
  { id := r.id, iid := r.iid, title := r.title, description := r.description,
    state := r.state, sourceBranch := r.sourceBranch, targetBranch := r.targetBranch,
    author := r.author, webUrl := r.webUrl, createdAt := r.createdAt,
    updatedAt := r.updatedAt, diffRefs := r.diffRefs, _raw := () }

/-- Payload agreement on the common-model-relevant fields: ids, iid/number,
title, description, normalized state, branches, author fields (through each
provider's user normalization), URLs, timestamps, and the diff-reference
SHAs — where GitLab's start SHA must equal the base SHA, since GitHub pins
startSha to base. -/
def AgreeOnCommonFields (gh : GitHubPullRaw) (gl : GitLabMRRaw) : Prop :=
  gh.id = gl.id ∧ gh.number = gl.iid ∧ gh.title = gl.title
  ∧ jsOrUndef gh.body = jsStrOrUndef gl.description
  ∧ toReviewStateGitHub gh = toReviewStateGitLab gl.state
  ∧ gh.head.ref = gl.source_branch ∧ gh.base.ref = gl.target_branch
  ∧ toUserGitHub gh.user = toUserGitLab gl.author
  ∧ gh.html_url = gl.web_url
  ∧ gh.created_at = gl.created_at ∧ gh.updated_at = gl.updated_at
  ∧ gl.diff_refs = some ⟨gh.base.sha, gh.head.sha, gh.base.sha⟩

/-- C9: provider payloads agreeing on the common-model-relevant fields
normalize — through the GitHub and GitLab `toReview` — to structurally
identical common-model Reviews in every field except the raw payload. -/
theorem C9_adapters_agree_modulo_raw (gh : GitHubPullRaw) (gl : GitLabMRRaw)
    (h : AgreeOnCommonFields gh gl) :
    eraseRaw (toReviewGitHub gh) = eraseRaw (toReviewGitLab gl) := by
  obtain ⟨h1, h2, h3, h4, h5, h6, h7, h8, h9, h10, h11, h12⟩ := h
  unfold eraseRaw toReviewGitHub toReviewGitLab
  rw [h12]
  simp [PlatformReview.mk.injEq, h1, h2, h3, h4, h5, h6, h7, h8, h9, h10, h11]

/-- A GitHub pull fixture equivalent to `glSample`. -/
def ghSample : GitHubPullRaw :=
  ⟨10, 3, "Add parser", some "desc", "closed", true,
    ⟨"feature", "headsha"⟩, ⟨"main", "basesha"⟩,
    ⟨7, "alice", some "Alice", "avatar-url", "user-url"⟩,
    "mr-url", "2024-01-01", "2024-01-02"⟩

/-- A GitLab merge-request fixture equivalent to `ghSample`. -/
def glSample : GitLabMRRaw :=
  ⟨10, 3, "Add parser", "desc", "merged",
    "feature", "main", ⟨7, "alice", "Alice", "avatar-url", "user-url"⟩,
    "mr-url", "2024-01-01", "2024-01-02",
    some ⟨"basesha", "headsha", "basesha"⟩⟩

/-- Witness for `C9_adapters_agree_modulo_raw`: the two fixtures agree and
normalize identically modulo the raw payload. -/
theorem C9_adapters_agree_modulo_raw_witness :
    AgreeOnCommonFields ghSample glSample
    ∧ eraseRaw (toReviewGitHub ghSample) = eraseRaw (toReviewGitLab glSample) :=
  ⟨by unfold AgreeOnCommonFields; decide,
    C9_adapters_agree_modulo_raw ghSample glSample (by unfold AgreeOnCommonFields; decide)⟩

/-- The list state `getReviews` sends to GitHub: no native "merged" list
state exists, so a merged query uses the provider's "closed" list. -/
def ghStateParam (state : Option String) : String :=
  if state = some "closed" ∨ state = some "merged" then "closed"
  else if state = some "all" then "all"
  else "open"

/-- GitHub `getReviews` after the fetch: normalize every raw pull, then —
only for the "merged" query — filter the normalized reviews to merged. -/
def getReviewsGitHub (state : Option String) (raws : List GitHubPullRaw) :
    List (PlatformReview GitHubPullRaw) :=
  let reviews := raws.map toReviewGitHub
  if state = some "merged" then reviews.filter (fun r => r.state == "merged")
  else reviews

/-- C10: a "merged" query hits the provider's "closed" list and then filters
the normalized results, so it returns exactly the merged reviews and never a
merely-closed one; a "closed" query applies no filter, so its results keep
merged pulls normalized to state "merged". -/
theorem C10_merged_queries_closed_then_filters :
    ghStateParam (some "merged") = "closed"
    ∧ (∀ (raws : List GitHubPullRaw) (r : PlatformReview GitHubPullRaw),
        r ∈ getReviewsGitHub (some "merged") raws → r.state = "merged")
    ∧ (∀ (raws : List GitHubPullRaw) (raw : GitHubPullRaw),
        raw.merged = false →
        toReviewGitHub raw ∉ getReviewsGitHub (some "merged") raws)
    ∧ (∀ raws : List GitHubPullRaw,
        getReviewsGitHub (some "closed") raws = raws.map toReviewGitHub)
    ∧ (∀ (raws : List GitHubPullRaw) (raw : GitHubPullRaw),
        raw ∈ raws → raw.merged = true →
        toReviewGitHub raw ∈ getReviewsGitHub (some "merged") raws
        ∧ toReviewGitHub raw ∈ getReviewsGitHub (some "closed") raws
        ∧ (toReviewGitHub raw).state = "merged") := by
  have hmem : ∀ (raws : List GitHubPullRaw) (r : PlatformReview GitHubPullRaw),
      r ∈ getReviewsGitHub (some "merged") raws → r.state = "merged" := by
    intro raws r hr
    unfold getReviewsGitHub at hr
    simp only [reduceIte, List.mem_filter] at hr
    simpa using hr.2
  refine ⟨by decide, hmem, ?_, ?_, ?_⟩
  · intro raws raw hm hmem2
    have hst := hmem raws (toReviewGitHub raw) hmem2
    unfold toReviewGitHub toReviewStateGitHub at hst
    simp only [hm] at hst
    by_cases hc : raw.state = "closed" <;> simp [hc] at hst
  · intro raws
    unfold getReviewsGitHub
    simp
  · intro raws raw hmem2 hm
    have hst : (toReviewGitHub raw).state = "merged" := by
      unfold toReviewGitHub toReviewStateGitHub
      simp [hm]
    refine ⟨?_, ?_, hst⟩
    · unfold getReviewsGitHub
      simp only [reduceIte, List.mem_filter]
      exact ⟨List.mem_map_of_mem toReviewGitHub hmem2, by simp [hst]⟩
    · unfold getReviewsGitHub
      simp only [reduceIte]
      exact List.mem_map_of_mem toReviewGitHub hmem2

/-- A merged GitHub pull fixture. -/
def ghMergedSample : GitHubPullRaw :=
  ⟨11, 4, "Merged PR", none, "closed", true,
    ⟨"f", "h"⟩, ⟨"m", "b"⟩, ⟨7, "alice", none, "a", "u"⟩, "w", "d1", "d2"⟩

/-- A closed-but-not-merged GitHub pull fixture. -/
def ghClosedSample : GitHubPullRaw :=
  ⟨12, 5, "Closed PR", none, "closed", false,
    ⟨"f", "h"⟩, ⟨"m", "b"⟩, ⟨7, "alice", none, "a", "u"⟩, "w", "d1", "d2"⟩

/-- Witness for `C10_merged_queries_closed_then_filters`: of one merged and
one merely-closed pull, the merged query returns only the merged one. -/
theorem C10_merged_queries_closed_then_filters_witness :
    toReviewGitHub ghMergedSample
        ∈ getReviewsGitHub (some "merged") [ghMergedSample, ghClosedSample]
    ∧ toReviewGitHub ghClosedSample
        ∉ getReviewsGitHub (some "merged") [ghMergedSample, ghClosedSample] :=
  ⟨(C10_merged_queries_closed_then_filters.2.2.2.2 [ghMergedSample, ghClosedSample]
      ghMergedSample (by decide) rfl).1,
    C10_merged_queries_closed_then_filters.2.2.1 [ghMergedSample, ghClosedSample]
      ghClosedSample rfl⟩
